import Mathlib

/-!
Shallow embedding of the SIMD arithmetic kernels of `src/inc/simd/arithmetic.h`
(veles.simd).  Buffers are modelled as total functions `Nat → α` (the output
buffer carries its initial contents `out0`, since some routines leave indices
unwritten); a C loop `for (i = a; i < b; i += s)` is modelled by `cloop a b s`,
a fold over the strided index list; machine integer casts are modelled on `Int`
with explicit two's-complement wrapping, and `float` values are modelled as
exact rationals (each kernel below performs a single arithmetic operation per
element, so exact arithmetic mirrors the per-element machine computation; the
casts record the truncation/wrapping behaviour of the compiled code).
-/

/-- Write the block `v 0, v 1, ..., v (W-1)` at positions `i, i+1, ..., i+W-1`
of buffer `out` (a W-element vector store at offset `i`). -/
def storeBlock {α : Type} (W : Nat) (out : Nat → α) (i : Nat) (v : Nat → α) : Nat → α :=
  fun j => if i ≤ j ∧ j < i + W then v (j - i) else out j

/-- Model of the C loop `for (i = a; i < b; i += s) body`: the body runs on
`a, a + s, a + 2s, ...` for as long as the index is `< b`, i.e. exactly
`(b - a + (s - 1)) / s` times (with Nat truncated subtraction, which matches
the signed C comparison because a loop whose bound is below its start runs
zero times in both). -/
def cloop {σ : Type} (a b s : Nat) (body : Nat → σ → σ) (init : σ) : σ :=
  (List.range ((b - a + (s - 1)) / s)).foldl (fun st k => body (a + s * k) st) init

/-- Two's-complement wrap of an integer to `int16_t` (the behaviour of the
compiled conversion to a 16-bit integer on this target). -/
def wrap16 (x : Int) : Int := (x + 32768) % 65536 - 32768

/-- Two's-complement wrap of an integer to `int32_t`. -/
def wrap32 (x : Int) : Int := (x + 2147483648) % 4294967296 - 2147483648

/-- Zero-extension of the low 16 bits of a value, as an unsigned quantity. -/
def zext16 (x : Int) : Int := x % 65536

/-- Truncation of a rational toward zero (the rounding used by the C
float-to-integer conversions and by the `cvtt`-family instructions). -/
def ratTrunc (q : ℚ) : Int := Int.tdiv q.num q.den

/-- Conversion of a `float` to `int32_t` as compiled on x86 (`cvttss2si` /
`_mm256_cvttps_epi32`): truncation toward zero; out-of-range values produce
the indefinite value `INT32_MIN`. -/
def c_cvtt_f32_i32 (q : ℚ) : Int :=
  let t := ratTrunc q
  if -2147483648 ≤ t ∧ t < 2147483648 then t else -2147483648

/-- Conversion of a `float` to `int16_t` as compiled on x86: truncation to a
32-bit integer followed by taking the low 16 bits. -/
def c_cvtt_f32_i16 (q : ℚ) : Int := wrap16 (c_cvtt_f32_i32 q)

/-- Conversion of an integer to `float`.  Exact whenever the magnitude is
below 2^24, which covers every use in this file (the sources feeding it are
16-bit values). -/
def c_float_of_int (v : Int) : ℚ := (v : ℚ)

/-- Number of binary digits of `x`, computed with structural fuel so that the
kernel can evaluate it (`bitlenAux fuel x` is the bit length of `x` whenever
`x < 2 ^ fuel`). -/
def bitlenAux : Nat → Nat → Nat
  | 0, _ => 0
  | fuel + 1, x => if x = 0 then 0 else bitlenAux fuel (x / 2) + 1

/-- `__builtin_clz` on a (nonzero) 32-bit value. -/
def clz32 (x : Nat) : Nat := 32 - bitlenAux 32 x

/-- `vclzq_u16`: count of leading zeros of a 16-bit lane. -/
def clz16 (x : Nat) : Nat := 16 - bitlenAux 16 x

/-! ## Scalar reference implementations (`*_na`) -/

/-- `int16_to_float_na`: `res[i] = (float)data[i]` for `i` in `[0, length)`. -/
def int16_to_float_na (data : Nat → Int) (length : Nat) (out0 : Nat → ℚ) : Nat → ℚ :=
  cloop 0 length 1 (fun i out => storeBlock 1 out i (fun _ => c_float_of_int (data i))) out0

/-- `float_to_int16_na`: `res[i] = (int16_t)data[i]` (simple truncation). -/
def float_to_int16_na (data : Nat → ℚ) (length : Nat) (out0 : Nat → Int) : Nat → Int :=
  cloop 0 length 1 (fun i out => storeBlock 1 out i (fun _ => c_cvtt_f32_i16 (data i))) out0

/-- `float_to_int32_na`: `res[i] = (int32_t)data[i]`. -/
def float_to_int32_na (data : Nat → ℚ) (length : Nat) (out0 : Nat → Int) : Nat → Int :=
  cloop 0 length 1 (fun i out => storeBlock 1 out i (fun _ => c_cvtt_f32_i32 (data i))) out0

/-- `int32_to_int16_na`: `res[i] = (int16_t)data[i]`. -/
def int32_to_int16_na (data : Nat → Int) (length : Nat) (out0 : Nat → Int) : Nat → Int :=
  cloop 0 length 1 (fun i out => storeBlock 1 out i (fun _ => wrap16 (data i))) out0

/-- `int16_to_int32_na`: `res[i] = (int32_t)data[i]`; widening a 16-bit value
to 32 bits is exact. -/
def int16_to_int32_na (data : Nat → Int) (length : Nat) (out0 : Nat → Int) : Nat → Int :=
  cloop 0 length 1 (fun i out => storeBlock 1 out i (fun _ => data i)) out0

/-- One element of `float16_to_float_na`: decodes a 16-bit half-precision bit
pattern to a 32-bit single-precision bit pattern, exactly as the scalar C code
(switch on the exponent field; subnormals are normalised with
`__builtin_clz`). -/
def f16_decode (inp : Nat) : Nat :=
  let exp := inp &&& 0x7c00
  let bits :=
    if exp = 0 then
      let m := inp &&& 0x03ff
      if m = 0 then
        0
      else
        let lz := clz32 m - 16 - 6
        let e := (127 - 15 - lz) <<< 23
        let m2 := m <<< (lz + 1)
        e ||| ((m2 &&& 0x03ff) <<< 13)
    else if exp = 0x7c00 then
      ((inp &&& 0x03ff) <<< 13) ||| 0x7f800000
    else
      ((inp &&& 0x7fff) <<< 13) + 0x38000000
  bits ||| ((inp &&& 0x8000) <<< 16)

/-- A call `float16_to_float_na(data + a, n, res + a)`: decode the segment
`[a, a + n)`. -/
def f16_na_seg (data : Nat → Nat) (a n : Nat) (out : Nat → Nat) : Nat → Nat :=
  cloop a (a + n) 1 (fun i o => storeBlock 1 o i (fun _ => f16_decode (data i))) out

/-- `float16_to_float_na` on a whole buffer. -/
def float16_to_float_na (data : Nat → Nat) (length : Nat) (out0 : Nat → Nat) : Nat → Nat :=
  f16_na_seg data 0 length out0

/-- `real_multiply_scalar_na`: `res[i] = array[i] * value`. -/
def real_multiply_scalar_na (array : Nat → ℚ) (length : Nat) (value : ℚ)
    (out0 : Nat → ℚ) : Nat → ℚ :=
  cloop 0 length 1 (fun i out => storeBlock 1 out i (fun _ => array i * value)) out0

/-- `sum_elements_na`: left-to-right accumulation of all elements. -/
def sum_elements_na (input : Nat → ℚ) (length : Nat) : ℚ :=
  cloop 0 length 1 (fun j r => r + input j) (0 : ℚ)

/-- `add_to_all_na`: `output[j] = input[j] + value`. -/
def add_to_all_na (input : Nat → ℚ) (length : Nat) (value : ℚ)
    (out0 : Nat → ℚ) : Nat → ℚ :=
  cloop 0 length 1 (fun j out => storeBlock 1 out j (fun _ => input j + value)) out0

/-! ## Vector intrinsic models -/

/-- Signed 16-bit saturation performed per element by `packs_epi32`. -/
def packssdw (x : Int) : Int := max (-32768) (min 32767 x)

/-- `_mm256_packs_epi32 a b`: per 128-bit lane, the four saturated elements of
`a` then the four of `b`; so the sixteen 16-bit results are
`a0..a3, b0..b3, a4..a7, b4..b7`. -/
def mm256_packs_epi32 (a b : Nat → Int) : Nat → Int := fun k =>
  if k < 4 then packssdw (a k)
  else if k < 8 then packssdw (b (k - 4))
  else if k < 12 then packssdw (a (k - 4))
  else packssdw (b (k - 8))

/-- `_mm256_unpacklo_epi16 a b` viewed as eight 32-bit little-endian elements:
element `k` pairs the 16-bit element of `a` (low half) with that of `b` (high
half), drawing from lanes `0..3` resp. `8..11` of the 256-bit inputs. -/
def mm256_unpacklo_epi16_32 (a b : Nat → Int) : Nat → Int := fun k =>
  let al := if k < 4 then a k else a (k + 4)
  let bl := if k < 4 then b k else b (k + 4)
  wrap32 (zext16 al + 65536 * zext16 bl)

/-- `_mm256_unpackhi_epi16 a b` viewed as eight 32-bit elements (lanes `4..7`
resp. `12..15` of the inputs). -/
def mm256_unpackhi_epi16_32 (a b : Nat → Int) : Nat → Int := fun k =>
  let al := if k < 4 then a (k + 4) else a (k + 8)
  let bl := if k < 4 then b (k + 4) else b (k + 8)
  wrap32 (zext16 al + 65536 * zext16 bl)

/-- `_mm256_hadd_ps a b`:
`[a0+a1, a2+a3, b0+b1, b2+b3, a4+a5, a6+a7, b4+b5, b6+b7]`. -/
def mm256_hadd_ps (a b : Nat → ℚ) : Nat → ℚ := fun l =>
  if l = 0 then a 0 + a 1
  else if l = 1 then a 2 + a 3
  else if l = 2 then b 0 + b 1
  else if l = 3 then b 2 + b 3
  else if l = 4 then a 4 + a 5
  else if l = 5 then a 6 + a 7
  else if l = 6 then b 4 + b 5
  else b 6 + b 7

/-! ## AVX2 conversion kernels

`startIndex` is the alignment complement of the input buffer
(`align_complement_*`), passed as a parameter since it is derived from the
runtime address of the buffer. -/

namespace AVX2

/-- AVX2 `int32_to_int16` (arithmetic.h lines 345-365): scalar head up to
`startIndex`; then a loop advancing 16 per iteration that loads the two
overlapping 8-element vectors at `data + i` and `data + i + 4` and stores
their 16-bit saturated pack; then a scalar tail. -/
def int32_to_int16 (data : Nat → Int) (length startIndex : Nat)
    (out0 : Nat → Int) : Nat → Int :=
  let out := cloop 0 startIndex 1
    (fun i o => storeBlock 1 o i (fun _ => wrap16 (data i))) out0
  let out := cloop startIndex (length - 15) 16
    (fun i o =>
      let intVecHi : Nat → Int := fun k => data (i + k)
      let intVecLo : Nat → Int := fun k => data (i + 4 + k)
      storeBlock 16 o i (mm256_packs_epi32 intVecHi intVecLo)) out
  cloop (startIndex + 16 * ((length - startIndex) / 16)) length 1
    (fun i o => storeBlock 1 o i (fun _ => wrap16 (data i))) out

/-- AVX2 `float_to_int32` (arithmetic.h lines 301-320): the scalar head stores
`(int16_t)data[i]` (sic) into the 32-bit output; the vector body and the
scalar tail truncate to 32 bits. -/
def float_to_int32 (data : Nat → ℚ) (length startIndex : Nat)
    (out0 : Nat → Int) : Nat → Int :=
  let out := cloop 0 startIndex 1
    (fun i o => storeBlock 1 o i (fun _ => c_cvtt_f32_i16 (data i))) out0
  let out := cloop startIndex (length - 7) 8
    (fun i o => storeBlock 8 o i (fun k => c_cvtt_f32_i32 (data (i + k)))) out
  cloop (startIndex + 8 * ((length - startIndex) / 8)) length 1
    (fun i o => storeBlock 1 o i (fun _ => c_cvtt_f32_i32 (data i))) out

/-- AVX2 `int16_to_int32` (arithmetic.h lines 322-343): the scalar head stores
`(float)data[i]` into the 32-bit output (exact, converted back on store); the
vector body unpacks with a zero vector (zero-extension) and stores the two
unpack results at `res + i` and `res + i + 8`; scalar tail. -/
def int16_to_int32 (data : Nat → Int) (length startIndex : Nat)
    (out0 : Nat → Int) : Nat → Int :=
  let out := cloop 0 startIndex 1
    (fun i o => storeBlock 1 o i
      (fun _ => c_cvtt_f32_i32 (c_float_of_int (data i)))) out0
  let out := cloop startIndex (length - 15) 16
    (fun i o =>
      let intVec : Nat → Int := fun k => data (i + k)
      let zeros : Nat → Int := fun _ => 0
      let intlo := mm256_unpacklo_epi16_32 intVec zeros
      let inthi := mm256_unpackhi_epi16_32 intVec zeros
      storeBlock 8 (storeBlock 8 o i intlo) (i + 8) inthi) out
  cloop (startIndex + 16 * ((length - startIndex) / 16)) length 1
    (fun i o => storeBlock 1 o i (fun _ => data i)) out

end AVX2

namespace AVX

/-- AVX `real_multiply_scalar` (arithmetic.h lines 752-785).  When the two
buffers have equal alignment complements: scalar head, aligned 8-wide vector
body, scalar tail from `startIndex + ((length - startIndex) & ~7)`.
Otherwise: unaligned 8-wide vector body from 0, scalar tail from
`(length - startIndex) & ~7`. -/
def real_multiply_scalar (array : Nat → ℚ) (length : Nat) (value : ℚ)
    (startIndex startIndexRes : Nat) (out0 : Nat → ℚ) : Nat → ℚ :=
  if startIndex = startIndexRes then
    let out := cloop 0 startIndex 1
      (fun i o => storeBlock 1 o i (fun _ => array i * value)) out0
    let out := cloop startIndex (length - 7) 8
      (fun i o => storeBlock 8 o i (fun k => array (i + k) * value)) out
    cloop (startIndex + 8 * ((length - startIndex) / 8)) length 1
      (fun i o => storeBlock 1 o i (fun _ => array i * value)) out
  else
    let out := cloop 0 (length - 7) 8
      (fun i o => storeBlock 8 o i (fun k => array (i + k) * value)) out0
    cloop (8 * ((length - startIndex) / 8)) length 1
      (fun i o => storeBlock 1 o i (fun _ => array i * value)) out

/-- AVX `sum_elements` (arithmetic.h lines 791-808): 8-lane accumulator fed
two vectors per iteration (16 elements), horizontally added twice, lanes 0
and 4 summed, then a scalar tail from `length & ~15`. -/
def sum_elements (input : Nat → ℚ) (length : Nat) : ℚ :=
  let lanes0 : Nat → ℚ := fun _ => 0
  let accum := cloop 0 (length - 15) 16
    (fun j acc => fun l =>
      if l < 8 then (acc l + input (j + l)) + input (j + 8 + l) else acc l)
    lanes0
  let h1 := mm256_hadd_ps accum accum
  let h2 := mm256_hadd_ps h1 h1
  let res := h2 0 + h2 4
  cloop (16 * (length / 16)) length 1 (fun j r => r + input j) res

end AVX

namespace NEON

/-- NEON `add_to_all` (arithmetic.h lines 1186-1201): per iteration the two
4-wide sums of `input + j` and `input + j + 4` with the broadcast value are
stored at `output + j` and `output + j + 8` (sic), then a scalar tail from
`length & ~7`. -/
def add_to_all (input : Nat → ℚ) (length : Nat) (value : ℚ)
    (out0 : Nat → ℚ) : Nat → ℚ :=
  let out := cloop 0 (length - 7) 8
    (fun j o =>
      let vec1 : Nat → ℚ := fun k => value + input (j + k)
      let vec2 : Nat → ℚ := fun k => value + input (j + 4 + k)
      let o := storeBlock 4 o j vec1
      storeBlock 4 o (j + 8) vec2) out0
  cloop (8 * (length / 8)) length 1
    (fun j o => storeBlock 1 o j (fun _ => input j + value)) out

/-- One 8-lane batch of NEON `float16_to_float` (arithmetic.h lines 947-1034).
`zero_check` is the sum of the 16-bit all-ones compare masks over the eight
lanes, i.e. `0xffff * count`; the code compares it against `0` and
`0xffff << 3`.  In the all-subnormal branch the final OR for the high half
reads `vorrq_u32(signhi, tmplo)` in the source, reusing the low-half result
`tmplo`; this model reproduces that. -/
def f16x8_batch (d : Nat → Nat) (i : Nat) (out : Nat → Nat) : Nat → Nat :=
  let lane : Nat → Nat := fun k => d (i + k)
  let expZeroCount := ((List.range 8).filter (fun k => lane k &&& 0x7c00 == 0)).length
  let zero_check := 0xffff * expZeroCount
  if zero_check ≠ 0 then
    if zero_check = 0xffff <<< 3 then
      let mant : Nat → Nat := fun k => lane k &&& 0x03ff
      let mantZeroCount := ((List.range 8).filter (fun k => mant k == 0)).length
      let zc2 := 0xffff * mantZeroCount
      if zc2 = 0xffff <<< 3 then
        storeBlock 8 out i (fun k => (lane k &&& 0x8000) <<< 16)
      else if zc2 = 0 then
        let lzv : Nat → Nat := fun k => clz16 (mant k) - 5
        let expv : Nat → Nat := fun k => (127 - 15 + 1) - lzv k
        let tmpv : Nat → Nat := fun k => ((mant k <<< lzv k) % 65536) &&& 0x03ff
        let valv : Nat → Nat := fun k => (tmpv k <<< 13) ||| (expv k <<< 23)
        let signv : Nat → Nat := fun k => (lane k &&& 0x8000) <<< 16
        let tmplo : Nat → Nat := fun k => signv k ||| valv k
        let tmphi : Nat → Nat := fun k => signv (4 + k) ||| tmplo k
        storeBlock 4 (storeBlock 4 out i tmplo) (i + 4) tmphi
      else
        f16_na_seg d i 8 out
    else
      f16_na_seg d i 8 out
  else
    let cmp : Nat → Bool := fun k => lane k &&& 0x7c00 == 0x7c00
    let andv : Nat → Nat := fun k => if cmp k then 0x03ff else 0x7fff
    let tmpv : Nat → Nat := fun k => (lane k &&& andv k) <<< 13
    let addv : Nat → Nat := fun k => (if cmp k then 0x7f80 else 0x3800) <<< 16
    let signv : Nat → Nat := fun k => (lane k &&& 0x8000) <<< 16
    storeBlock 8 out i (fun k => (tmpv k + addv k) ||| signv k)

/-- NEON `float16_to_float` (arithmetic.h lines 942-1038): 8-wide batches,
then the scalar decoder on the tail `[length & ~7, length)`. -/
def float16_to_float (data : Nat → Nat) (length : Nat) (out0 : Nat → Nat) : Nat → Nat :=
  let out := cloop 0 (length - 7) 8 (f16x8_batch data) out0
  f16_na_seg data (8 * (length / 8)) (length - 8 * (length / 8)) out

end NEON

/-! ## Interpretation of 32-bit float bit patterns -/

/-- The exact rational value of a finite IEEE-754 single-precision bit
pattern (sign, 8 exponent bits, 23 mantissa bits); both signed zeros map
to 0. -/
def f32val (b : Nat) : ℚ :=
  let s : ℚ := if b / 2 ^ 31 = 1 then -1 else 1
  let e : Nat := b / 2 ^ 23 % 2 ^ 8
  let m : Nat := b % 2 ^ 23
  if e = 0 then s * (m : ℚ) / 2 ^ 149
  else s * ((2 ^ 23 + m : Nat) : ℚ) * 2 ^ e / 2 ^ 150

/-- The bit pattern of positive infinity. -/
def isPosInf32 (b : Nat) : Prop := b = 0x7f800000

/-- The bit pattern of negative infinity. -/
def isNegInf32 (b : Nat) : Prop := b = 0xff800000

/-- A NaN bit pattern: exponent all ones, mantissa nonzero. -/
def isNaN32 (b : Nat) : Prop := b / 2 ^ 23 % 2 ^ 8 = 0xff ∧ b % 2 ^ 23 ≠ 0

/-! ## `next_highest_power_of_2` -/

/-- Arithmetic (sign-propagating) right shift of a 32-bit two's-complement
bit pattern, as performed by `>>` on a negative `int` on this target. -/
def asr32 (x n : Nat) : Nat :=
  if x < 2 ^ 31 then x >>> n else (x >>> n) ||| ((2 ^ n - 1) <<< (32 - n))

/-- `next_highest_power_of_2` (arithmetic.h lines 1227-1235), modelled on the
32-bit two's-complement bit pattern of the `int` argument: decrement, OR in
the right shifts by 1, 2, 4, 8, 16, increment. -/
def next_highest_power_of_2 (value : Int) : Int :=
  let x : Nat := ((value - 1) % 4294967296).toNat
  let x := x ||| asr32 x 1
  let x := x ||| asr32 x 2
  let x := x ||| asr32 x 4
  let x := x ||| asr32 x 8
  let x := x ||| asr32 x 16
  let r := (x + 1) % 4294967296
  if r < 2 ^ 31 then (r : Int) else (r : Int) - 4294967296

/-! ## Claim theorems -/

/-- C1: refuted on the code.  On the aligned input `data[j] = j` of length 16,
the AVX2 `int32_to_int16` loads only elements `i..i+11` (vectors at `i` and
`i + 4`) while advancing 16 per iteration and `packs` duplicates elements
`4..7`: output index 8 receives `data[4] = 4`, whereas the scalar reference
`int32_to_int16_na` writes `(int16_t)data[8] = 8` there. -/
theorem avx2_int32_to_int16_skips_elements :
    AVX2.int32_to_int16 (fun j => (j : Int)) 16 0 (fun _ => 0) 8 = 4 ∧
    int32_to_int16_na (fun j => (j : Int)) 16 (fun _ => 0) 8 = 8 := by decide

/-- C2: refuted on the code.  With alignment complement 1 and the single
element `40000.0`, the scalar head of the AVX2 `float_to_int32` stores
`(int16_t)40000.0f = -25536` into the 32-bit output, whereas the scalar
reference `float_to_int32_na` truncates to the 32-bit value `40000`. -/
theorem avx2_float_to_int32_head_truncates_to_int16 :
    AVX2.float_to_int32 (fun _ => (40000 : ℚ)) 1 1 (fun _ => 0) 0 = -25536 ∧
    float_to_int32_na (fun _ => (40000 : ℚ)) 1 (fun _ => 0) 0 = 40000 := by
  constructor <;>
    norm_num [AVX2.float_to_int32, float_to_int32_na, cloop, storeBlock,
      c_cvtt_f32_i16, c_cvtt_f32_i32, ratTrunc, wrap16, List.range_succ]

/-- C3: refuted on the code.  On the uniformly subnormal batch
`[1,1,1,1,2,2,2,2]` the NEON `float16_to_float` subnormal path computes the
high-half result as `vorrq_u32(signhi, tmplo)` — reusing the low-half values —
so output index 4 receives the decoding of `0x0001` (`0x33800000`) instead of
the decoding of `0x0002` (`0x34000000`) produced by the scalar reference. -/
theorem neon_float16_subnormal_high_half_wrong :
    NEON.float16_to_float (fun j => if j < 4 then 1 else 2) 8 (fun _ => 0) 4 = 0x33800000 ∧
    float16_to_float_na (fun j => if j < 4 then 1 else 2) 8 (fun _ => 0) 4 = 0x34000000 := by
  decide

/-- C4: the scalar decoder `float16_to_float_na` maps the eight literal
half-precision inputs to the claimed single-precision values: both signed
zeros, the smallest positive subnormal `2^-24`, `1.0`, `65504.0`, both
infinities, and a NaN. -/
theorem float16_to_float_na_literal_values :
    (f16_decode 0x0000 = 0x00000000 ∧ f16_decode 0x8000 = 0x80000000 ∧
     f16_decode 0x0001 = 0x33800000 ∧ f16_decode 0x3C00 = 0x3F800000 ∧
     f16_decode 0x7BFF = 0x477FE000 ∧ f16_decode 0x7C00 = 0x7F800000 ∧
     f16_decode 0xFC00 = 0xFF800000 ∧ f16_decode 0x7E00 = 0x7FC00000) ∧
    f32val 0x33800000 = 1 / 16777216 ∧ f32val 0x3F800000 = 1 ∧
    f32val 0x477FE000 = 65504 ∧ f32val 0x00000000 = 0 ∧ f32val 0x80000000 = 0 ∧
    isPosInf32 0x7F800000 ∧ isNegInf32 0xFF800000 ∧ isNaN32 0x7FC00000 := by
  refine ⟨by decide, ?_, ?_, ?_, ?_, ?_, rfl, rfl, ⟨by norm_num, by norm_num⟩⟩ <;>
    norm_num [f32val]

/-- C5: refuted on the code.  NEON `add_to_all` stores the second 4-wide sum
at `output + j + 8` instead of `output + j + 4`, so on a length-8 input of
zeros with value 1 the output at index 4 keeps its initial value 0, whereas
the scalar reference `add_to_all_na` writes `0 + 1 = 1`. -/
theorem neon_add_to_all_skips_mid_lanes :
    NEON.add_to_all (fun _ => (0 : ℚ)) 8 1 (fun _ => 0) 4 = 0 ∧
    add_to_all_na (fun _ => (0 : ℚ)) 8 1 (fun _ => 0) 4 = 1 := by
  constructor <;>
    norm_num [NEON.add_to_all, add_to_all_na, cloop, storeBlock, List.range_succ]

/-- C10: refuted on the code.  The AVX2 `int16_to_int32` vector body unpacks
with a zero vector, which zero-extends instead of sign-extending, and the
256-bit unpack interleaves across 128-bit lanes: on `data[j] = j` of length
16, output index 4 receives `data[8] = 8` (the scalar reference gives 4), and
on the all `-1` input, output index 0 receives `65535` instead of `-1`. -/
theorem avx2_int16_to_int32_wrong_lanes :
    AVX2.int16_to_int32 (fun j => (j : Int)) 16 0 (fun _ => 0) 4 = 8 ∧
    int16_to_int32_na (fun j => (j : Int)) 16 (fun _ => 0) 4 = 4 ∧
    AVX2.int16_to_int32 (fun _ => (-1 : Int)) 16 0 (fun _ => 0) 0 = 65535 ∧
    int16_to_int32_na (fun _ => (-1 : Int)) 16 (fun _ => 0) 0 = -1 := by decide

/-- C6: confirmed.  For every int16 value `v`, converting `[v]` with
`int16_to_float` (exact, since every 16-bit integer is representable as a
float) and back with `float_to_int16` (truncation toward zero of an exact
integer) returns `[v]`. -/
theorem int16_float_roundtrip (v : Int) (h1 : -32768 ≤ v) (h2 : v ≤ 32767) :
    float_to_int16_na (int16_to_float_na (fun _ => v) 1 (fun _ => 0)) 1 (fun _ => 0) 0 = v := by
  have htr : ratTrunc ((v : ℚ)) = v := by
    simp [ratTrunc]
  have hwrap : wrap16 v = v := by
    unfold wrap16
    have : (v + 32768) % 65536 = v + 32768 := Int.emod_eq_of_lt (by omega) (by omega)
    omega
  simp [float_to_int16_na, int16_to_float_na, cloop, storeBlock, List.range_succ,
    c_cvtt_f32_i16, c_cvtt_f32_i32, c_float_of_int, htr]
  rw [if_pos (by omega : -2147483648 ≤ v ∧ v < 2147483648)]
  exact hwrap

/-- Witness for C6 at the concrete value `-5`. -/
theorem int16_float_roundtrip_witness :
    (-32768 ≤ (-5 : Int) ∧ (-5 : Int) ≤ 32767) ∧
    float_to_int16_na (int16_to_float_na (fun _ => (-5 : Int)) 1 (fun _ => 0)) 1
      (fun _ => 0) 0 = -5 :=
  ⟨⟨by decide, by decide⟩, int16_float_roundtrip (-5) (by decide) (by decide)⟩

/-! ## C7: sum_elements -/

/-- A scalar accumulation loop adds the elements of `[a, b)` in order. -/

theorem cloop_sum (f : Nat → ℚ) (a b : Nat) (r0 : ℚ) :
    cloop a b 1 (fun j r => r + f j) r0 = r0 + ∑ k ∈ Finset.range (b - a), f (a + k) := by
  unfold cloop
  have h : (b - a + (1 - 1)) / 1 = b - a := by omega
  rw [h]
  generalize b - a = n
  induction n with
  | zero => simp
  | succ n ih =>
    rw [List.range_succ, List.foldl_append]
    simp only [List.foldl_cons, List.foldl_nil]
    rw [ih, Finset.sum_range_succ]
    simp only [one_mul]
    ring


/-- The two horizontal adds followed by `lane 0 + lane 4` sum all 8 lanes. -/
theorem hadd_collapse (acc : Nat → ℚ) :
    mm256_hadd_ps (mm256_hadd_ps acc acc) (mm256_hadd_ps acc acc) 0 +
      mm256_hadd_ps (mm256_hadd_ps acc acc) (mm256_hadd_ps acc acc) 4 =
      ∑ l ∈ Finset.range 8, acc l := by
  simp [mm256_hadd_ps, Finset.sum_range_succ]
  ring


/-- The 16-per-iteration accumulator loop of the AVX `sum_elements` adds each
element of `[0, 16 * count)` into exactly one lane. -/
theorem sum_lanes_cloop (input : Nat → ℚ) (b : Nat) :
    (∑ l ∈ Finset.range 8,
      (cloop 0 b 16
        (fun j acc => fun l =>
          if l < 8 then (acc l + input (j + l)) + input (j + 8 + l) else acc l)
        (fun _ => (0 : ℚ))) l) =
    ∑ j ∈ Finset.range (16 * ((b + 15) / 16)), input j := by
  unfold cloop
  have h : (b - 0 + (16 - 1)) / 16 = (b + 15) / 16 := by omega
  rw [h]
  generalize (b + 15) / 16 = n
  induction n with
  | zero => simp
  | succ n ih =>
    rw [List.range_succ, List.foldl_append]
    simp only [List.foldl_cons, List.foldl_nil, Nat.zero_add]
    have key : ∀ (prev : Nat → ℚ),
        (∑ l ∈ Finset.range 8,
          (fun l => if l < 8 then (prev l + input (16 * n + l)) + input (16 * n + 8 + l)
            else prev l) l)
        = (∑ l ∈ Finset.range 8, prev l) +
          ((∑ l ∈ Finset.range 8, input (16 * n + l)) +
            ∑ l ∈ Finset.range 8, input (16 * n + 8 + l)) := by
      intro prev
      rw [← Finset.sum_add_distrib, ← Finset.sum_add_distrib]
      refine Finset.sum_congr rfl ?_
      intro l hl
      have hl8 := Finset.mem_range.mp hl
      simp only [hl8, if_pos]
      ring
    simp only [Nat.zero_add] at ih
    rw [key, ih]
    rw [show 16 * (n + 1) = 16 * n + (8 + 8) from by ring]
    rw [Finset.sum_range_add, Finset.sum_range_add]
    simp only [← Nat.add_assoc]


/-- The AVX `sum_elements` computes the sum of all elements. -/
theorem avx_sum_eq (input : Nat → ℚ) (length : Nat) :
    AVX.sum_elements input length = ∑ j ∈ Finset.range length, input j := by
  unfold AVX.sum_elements
  rw [cloop_sum, hadd_collapse, sum_lanes_cloop]
  have hcnt : (length - 15 + 15) / 16 = length / 16 := by omega
  rw [hcnt, ← Finset.sum_range_add]
  have h : 16 * (length / 16) + (length - 16 * (length / 16)) = length := by omega
  rw [h]

/-- The scalar `sum_elements_na` computes the sum of all elements. -/
theorem na_sum_eq (input : Nat → ℚ) (length : Nat) :
    sum_elements_na input length = ∑ j ∈ Finset.range length, input j := by
  unfold sum_elements_na
  rw [cloop_sum]
  simp


/-- C7: confirmed.  `sum_elements` returns 0 on an empty array, exactly 1000
on 1000 ones, and on every length equals the scalar reference
`sum_elements_na` (in the exact-arithmetic model both are the sum of the same
multiset of elements: every element enters the result exactly once). -/
theorem avx_sum_elements_correct :
    (∀ input : Nat → ℚ, AVX.sum_elements input 0 = 0) ∧
    AVX.sum_elements (fun _ => (1 : ℚ)) 1000 = 1000 ∧
    ∀ (input : Nat → ℚ) (length : Nat),
      AVX.sum_elements input length = sum_elements_na input length := by
  refine ⟨?_, ?_, ?_⟩
  · intro input; rw [avx_sum_eq]; simp
  · rw [avx_sum_eq]; simp
  · intro input length; rw [avx_sum_eq, na_sum_eq]

/-! ## C8: real_multiply_scalar alignment independence -/

/-- A loop whose body stores the block `vf i` (of width `W`, agreeing with the
target function `g`) at each visited index `i`: positions covered by some
iteration hold `g`, untouched positions keep the initial contents. -/
theorem cloop_stores {α : Type} (W a b s : Nat) (g : Nat → α) (vf : Nat → Nat → α)
    (hv : ∀ i k, k < W → vf i k = g (i + k)) (out0 : Nat → α) (j : Nat) :
    ((∃ k, k < (b - a + (s - 1)) / s ∧ a + s * k ≤ j ∧ j < a + s * k + W) →
      cloop a b s (fun i out => storeBlock W out i (vf i)) out0 j = g j) ∧
    ((∀ k, k < (b - a + (s - 1)) / s → ¬(a + s * k ≤ j ∧ j < a + s * k + W)) →
      cloop a b s (fun i out => storeBlock W out i (vf i)) out0 j = out0 j) := by
  unfold cloop
  generalize (b - a + (s - 1)) / s = n
  induction n with
  | zero =>
    constructor
    · rintro ⟨k, hk, _⟩; omega
    · intro _; simp
  | succ n ih =>
    rw [List.range_succ, List.foldl_append]
    simp only [List.foldl_cons, List.foldl_nil]
    unfold storeBlock
    by_cases hcov : a + s * n ≤ j ∧ j < a + s * n + W
    · constructor
      · intro _
        rw [if_pos hcov]
        rw [hv (a + s * n) (j - (a + s * n)) (by omega)]
        congr 1
        omega
      · intro hnone
        exact absurd hcov (hnone n (by omega))
    · constructor
      · rintro ⟨k, hk, hk2⟩
        rw [if_neg hcov]
        rcases Nat.lt_succ_iff_lt_or_eq.mp hk with h | h
        · exact ih.1 ⟨k, h, hk2⟩
        · subst h; exact absurd hk2 hcov
      · intro hnone
        rw [if_neg hcov]
        exact ih.2 fun k hk => hnone k (by omega)

/-- The equal-alignment branch of the AVX `real_multiply_scalar` (scalar head,
aligned vector body, scalar tail) writes `array[j] * value` at every
`j < length`. -/
theorem rms_aligned_eq (array : Nat → ℚ) (length : Nat) (value : ℚ) (sA : Nat)
    (out0 : Nat → ℚ) (j : Nat) (hj : j < length) :
    cloop (sA + 8 * ((length - sA) / 8)) length 1
      (fun i o => storeBlock 1 o i (fun _ => array i * value))
      (cloop sA (length - 7) 8
        (fun i o => storeBlock 8 o i (fun k => array (i + k) * value))
        (cloop 0 sA 1
          (fun i o => storeBlock 1 o i (fun _ => array i * value)) out0)) j
    = array j * value := by
  have hv1 : ∀ i k, k < 1 → (fun _ : Nat => array i * value) k =
      (fun t => array t * value) (i + k) := by
    intro i k hk
    have : k = 0 := by omega
    subst this
    simp
  have hv8 : ∀ i k, k < 8 → (fun kk => array (i + kk) * value) k =
      (fun t => array t * value) (i + k) := fun i k hk => rfl
  rcases Nat.lt_or_ge j sA with hreg | hreg
  · -- head region
    refine Eq.trans ((cloop_stores 1 _ length 1 (fun t => array t * value) _ hv1 _ j).2 ?_)
      (Eq.trans ((cloop_stores 8 sA (length - 7) 8 (fun t => array t * value) _ hv8 _ j).2 ?_)
        ((cloop_stores 1 0 sA 1 (fun t => array t * value) _ hv1 out0 j).1 ?_))
    · intro k hk; omega
    · intro k hk; omega
    · exact ⟨j, by omega, by omega, by omega⟩
  · rcases Nat.lt_or_ge (j - sA) (8 * ((length - sA) / 8)) with hreg2 | hreg2
    · -- vector body region
      refine Eq.trans ((cloop_stores 1 _ length 1 (fun t => array t * value) _ hv1 _ j).2 ?_)
        ((cloop_stores 8 sA (length - 7) 8 (fun t => array t * value) _ hv8 _ j).1 ?_)
      · intro k hk; omega
      · exact ⟨(j - sA) / 8, by omega, by omega, by omega⟩
    · -- tail region
      exact (cloop_stores 1 (sA + 8 * ((length - sA) / 8)) length 1 (fun t => array t * value) _ hv1 _ j).1
        ⟨j - (sA + 8 * ((length - sA) / 8)), by omega, by omega, by omega⟩

/-- The differing-alignment branch of the AVX `real_multiply_scalar`
(unaligned vector body from 0, scalar tail) writes `array[j] * value` at every
`j < length`. -/
theorem rms_unaligned_eq (array : Nat → ℚ) (length : Nat) (value : ℚ) (sA : Nat)
    (out0 : Nat → ℚ) (j : Nat) (hj : j < length) :
    cloop (8 * ((length - sA) / 8)) length 1
      (fun i o => storeBlock 1 o i (fun _ => array i * value))
      (cloop 0 (length - 7) 8
        (fun i o => storeBlock 8 o i (fun k => array (i + k) * value)) out0) j
    = array j * value := by
  have hv1 : ∀ i k, k < 1 → (fun _ : Nat => array i * value) k =
      (fun t => array t * value) (i + k) := by
    intro i k hk
    have : k = 0 := by omega
    subst this
    simp
  have hv8 : ∀ i k, k < 8 → (fun kk => array (i + kk) * value) k =
      (fun t => array t * value) (i + k) := fun i k hk => rfl
  rcases Nat.lt_or_ge j (8 * ((length - sA) / 8)) with hreg | hreg
  · refine Eq.trans
      ((cloop_stores 1 _ length 1 (fun t => array t * value) _ hv1 _ j).2 ?_)
      ((cloop_stores 8 0 (length - 7) 8 (fun t => array t * value) _ hv8 out0 j).1 ?_)
    · intro k hk; omega
    · exact ⟨j / 8, by omega, by omega, by omega⟩
  · exact (cloop_stores 1 (8 * ((length - sA) / 8)) length 1
      (fun t => array t * value) _ hv1 _ j).1
      ⟨j - 8 * ((length - sA) / 8), by omega, by omega, by omega⟩

/-- C8: confirmed.  For every input array, length, scalar, initial output
contents and any two values of the alignment complements of the input and
output buffers, `real_multiply_scalar` produces the same value at every output
index below the length (each path computes the single product
`array[j] * value` for every covered index, and the three phases always cover
`[0, length)`). -/
theorem real_multiply_scalar_align_independent (array : Nat → ℚ) (length : Nat)
    (value : ℚ) (s1 r1 s2 r2 : Nat) (o1 o2 : Nat → ℚ) (j : Nat) (hj : j < length) :
    AVX.real_multiply_scalar array length value s1 r1 o1 j =
      AVX.real_multiply_scalar array length value s2 r2 o2 j := by
  have key : ∀ (sA sR : Nat) (o : Nat → ℚ),
      AVX.real_multiply_scalar array length value sA sR o j = array j * value := by
    intro sA sR o
    unfold AVX.real_multiply_scalar
    by_cases hss : sA = sR
    · rw [if_pos hss]
      exact rms_aligned_eq array length value sA o j hj
    · rw [if_neg hss]
      exact rms_unaligned_eq array length value sA o j hj
  rw [key s1 r1 o1, key s2 r2 o2]

/-- Witness for C8: length 9, a forced scalar head on one side
(complement 1) versus the aligned path (complement 0), compared at index 8. -/
theorem real_multiply_scalar_align_independent_witness :
    (8 < 9) ∧
    AVX.real_multiply_scalar (fun _ => (2 : ℚ)) 9 3 0 0 (fun _ => 0) 8 =
      AVX.real_multiply_scalar (fun _ => (2 : ℚ)) 9 3 1 5 (fun _ => 7) 8 :=
  ⟨by decide, real_multiply_scalar_align_independent (fun _ => (2 : ℚ)) 9 3 0 0 1 5
    (fun _ => 0) (fun _ => 7) 8 (by decide)⟩

/-! ## C9: next_highest_power_of_2 -/

/-- One smearing step: if the bits of `s` are the OR of the bits of `x` over a
window of width `w`, then `s ||| s >>> w` has window width `2 * w`. -/
theorem or_shift_window (x s w : Nat)
    (hs : ∀ i, s.testBit i = true ↔ ∃ j, j < w ∧ x.testBit (i + j) = true) :
    ∀ i, (s ||| s >>> w).testBit i = true ↔ ∃ j, j < w + w ∧ x.testBit (i + j) = true := by
  intro i
  rw [Nat.testBit_or, Bool.or_eq_true, Nat.testBit_shiftRight, hs, hs]
  constructor
  · rintro (⟨j, hj, hbit⟩ | ⟨j, hj, hbit⟩)
    · exact ⟨j, by omega, hbit⟩
    · refine ⟨w + j, by omega, ?_⟩
      rw [show i + (w + j) = w + i + j from by omega]
      exact hbit
  · rintro ⟨j, hj, hbit⟩
    by_cases hjw : j < w
    · exact Or.inl ⟨j, hjw, hbit⟩
    · refine Or.inr ⟨j - w, by omega, ?_⟩
      rw [show w + i + (j - w) = i + j from by omega]
      exact hbit

/-- After the five OR-shift steps, bit `i` of the result is set exactly when
`x` has a set bit in the window `[i, i + 32)`. -/
theorem smear_window (x : Nat) :
    ∀ i,
      (((((x ||| x >>> 1) ||| (x ||| x >>> 1) >>> 2) |||
            ((x ||| x >>> 1) ||| (x ||| x >>> 1) >>> 2) >>> 4) |||
          (((x ||| x >>> 1) ||| (x ||| x >>> 1) >>> 2) |||
            ((x ||| x >>> 1) ||| (x ||| x >>> 1) >>> 2) >>> 4) >>> 8) |||
        ((((x ||| x >>> 1) ||| (x ||| x >>> 1) >>> 2) |||
            ((x ||| x >>> 1) ||| (x ||| x >>> 1) >>> 2) >>> 4) |||
          (((x ||| x >>> 1) ||| (x ||| x >>> 1) >>> 2) |||
            ((x ||| x >>> 1) ||| (x ||| x >>> 1) >>> 2) >>> 4) >>> 8) >>> 16).testBit i
        = true ↔ ∃ j, j < 32 ∧ x.testBit (i + j) = true := by
  have h0 : ∀ i, x.testBit i = true ↔ ∃ j, j < 1 ∧ x.testBit (i + j) = true := by
    intro i
    constructor
    · intro h; exact ⟨0, by omega, by simpa using h⟩
    · rintro ⟨j, hj, h⟩
      have : j = 0 := by omega
      subst this
      simpa using h
  have h1 := or_shift_window x _ 1 h0
  have h2 := or_shift_window x _ 2 h1
  have h4 := or_shift_window x _ 4 h2
  have h8 := or_shift_window x _ 8 h4
  have h16 := or_shift_window x _ 16 h8
  exact h16

/-- The leading bit of a nonzero number is set. -/
theorem testBit_log2_self (x : Nat) (hx : x ≠ 0) : x.testBit (Nat.log2 x) = true := by
  have h1 : 2 ^ Nat.log2 x ≤ x := Nat.log2_self_le hx
  have h2 : x < 2 ^ (Nat.log2 x + 1) := Nat.lt_log2_self
  rw [Nat.testBit_to_div_mod]
  have hdiv : x / 2 ^ Nat.log2 x = 1 := by
    apply Nat.div_eq_of_lt_le
    · simpa using h1
    · have : (1 + 1) * 2 ^ Nat.log2 x = 2 ^ (Nat.log2 x + 1) := by ring
      rw [this]
      exact h2
  rw [hdiv]
  decide

/-- The OR-shift cascade turns a nonzero 30-bit number into the all-ones
pattern up to and including its leading bit. -/
theorem smear_eq (x : Nat) (hx : x ≠ 0) (hb : x < 2 ^ 30) :
    ((((x ||| x >>> 1) ||| (x ||| x >>> 1) >>> 2) |||
          ((x ||| x >>> 1) ||| (x ||| x >>> 1) >>> 2) >>> 4) |||
        (((x ||| x >>> 1) ||| (x ||| x >>> 1) >>> 2) |||
          ((x ||| x >>> 1) ||| (x ||| x >>> 1) >>> 2) >>> 4) >>> 8) |||
      ((((x ||| x >>> 1) ||| (x ||| x >>> 1) >>> 2) |||
          ((x ||| x >>> 1) ||| (x ||| x >>> 1) >>> 2) >>> 4) |||
        (((x ||| x >>> 1) ||| (x ||| x >>> 1) >>> 2) |||
          ((x ||| x >>> 1) ||| (x ||| x >>> 1) >>> 2) >>> 4) >>> 8) >>> 16
      = 2 ^ (Nat.log2 x + 1) - 1 := by
  have hm : Nat.log2 x < 30 := (Nat.log2_lt hx).mpr hb
  have hhigh : ∀ t, Nat.log2 x < t → x.testBit t = false := by
    intro t ht
    apply Nat.testBit_lt_two_pow
    calc x < 2 ^ (Nat.log2 x + 1) := Nat.lt_log2_self
    _ ≤ 2 ^ t := Nat.pow_le_pow_right (by norm_num) (by omega)
  apply Nat.eq_of_testBit_eq
  intro i
  rw [Nat.testBit_two_pow_sub_one]
  by_cases hi : i ≤ Nat.log2 x
  · have : _ = true := (smear_window x i).mpr
      ⟨Nat.log2 x - i, by omega, by
        rw [show i + (Nat.log2 x - i) = Nat.log2 x from by omega]
        exact testBit_log2_self x hx⟩
    rw [this]
    have : i < Nat.log2 x + 1 := by omega
    simp [this]
  · cases h : Nat.testBit _ i with
    | true =>
      exfalso
      rcases (smear_window x i).mp h with ⟨j, hj, hbit⟩
      rw [hhigh (i + j) (by omega)] at hbit
      exact Bool.false_ne_true hbit
    | false =>
      have : ¬(i < Nat.log2 x + 1) := by omega
      simp [this]

/-- On a pattern without the sign bit, the arithmetic shift is a plain
shift. -/
theorem asr32_eq (x n : Nat) (h : x < 2 ^ 31) : asr32 x n = x >>> n := if_pos h

/-- Right shifts do not increase a natural number. -/
theorem shiftRight_le_self (y k : Nat) : y >>> k ≤ y := by
  rw [Nat.shiftRight_eq_div_pow]
  exact Nat.div_le_self ..

/-- For `2 <= v <= 2^30`, `next_highest_power_of_2` computes
`2 ^ (log2 (v - 1) + 1)`: no intermediate value reaches the sign bit, so the
arithmetic shifts behave as plain shifts and no wrap occurs. -/
theorem nhp2_pos_eq (v : Int) (hv1 : 2 ≤ v) (hv2 : v ≤ 1073741824) :
    next_highest_power_of_2 v = ((2 ^ (Nat.log2 (v - 1).toNat + 1) : Nat) : Int) := by
  simp only [next_highest_power_of_2]
  simp only [show (v - 1) % 4294967296 = v - 1 from
    Int.emod_eq_of_lt (by omega) (by omega)]
  generalize hxg : (v - 1).toNat = xn
  have hcast : (xn : Int) = v - 1 := by
    rw [← hxg]
    exact Int.toNat_of_nonneg (by omega)
  have hx0 : xn ≠ 0 := by omega
  have hxb : xn < 2 ^ 30 := by
    have h30 : ((2 : Nat) ^ 30 : Nat) = 1073741824 := by norm_num
    omega
  have hb31 : ∀ y : Nat, y < 2 ^ 30 → y < 2 ^ 31 := by
    intro y hy
    calc y < 2 ^ 30 := hy
    _ < 2 ^ 31 := by norm_num
  have b1 : xn ||| xn >>> 1 < 2 ^ 30 :=
    Nat.or_lt_two_pow hxb (lt_of_le_of_lt (shiftRight_le_self xn 1) hxb)
  have b2 : (xn ||| xn >>> 1) ||| (xn ||| xn >>> 1) >>> 2 < 2 ^ 30 :=
    Nat.or_lt_two_pow b1 (lt_of_le_of_lt (shiftRight_le_self _ 2) b1)
  have b3 : ((xn ||| xn >>> 1) ||| (xn ||| xn >>> 1) >>> 2) |||
      ((xn ||| xn >>> 1) ||| (xn ||| xn >>> 1) >>> 2) >>> 4 < 2 ^ 30 :=
    Nat.or_lt_two_pow b2 (lt_of_le_of_lt (shiftRight_le_self _ 4) b2)
  have b4 : (((xn ||| xn >>> 1) ||| (xn ||| xn >>> 1) >>> 2) |||
      ((xn ||| xn >>> 1) ||| (xn ||| xn >>> 1) >>> 2) >>> 4) |||
      (((xn ||| xn >>> 1) ||| (xn ||| xn >>> 1) >>> 2) |||
      ((xn ||| xn >>> 1) ||| (xn ||| xn >>> 1) >>> 2) >>> 4) >>> 8 < 2 ^ 30 :=
    Nat.or_lt_two_pow b3 (lt_of_le_of_lt (shiftRight_le_self _ 8) b3)
  rw [asr32_eq xn 1 (hb31 _ hxb)]
  rw [asr32_eq (xn ||| xn >>> 1) 2 (hb31 _ b1)]
  rw [asr32_eq ((xn ||| xn >>> 1) ||| (xn ||| xn >>> 1) >>> 2) 4 (hb31 _ b2)]
  rw [asr32_eq (((xn ||| xn >>> 1) ||| (xn ||| xn >>> 1) >>> 2) |||
      ((xn ||| xn >>> 1) ||| (xn ||| xn >>> 1) >>> 2) >>> 4) 8 (hb31 _ b3)]
  rw [asr32_eq ((((xn ||| xn >>> 1) ||| (xn ||| xn >>> 1) >>> 2) |||
      ((xn ||| xn >>> 1) ||| (xn ||| xn >>> 1) >>> 2) >>> 4) |||
      ((((xn ||| xn >>> 1) ||| (xn ||| xn >>> 1) >>> 2) |||
      ((xn ||| xn >>> 1) ||| (xn ||| xn >>> 1) >>> 2) >>> 4)) >>> 8) 16 (hb31 _ b4)]
  rw [smear_eq xn hx0 hxb]
  have hone : 1 ≤ 2 ^ (Nat.log2 xn + 1) := Nat.one_le_two_pow
  rw [Nat.sub_add_cancel hone]
  have hm : Nat.log2 xn < 30 := (Nat.log2_lt hx0).mpr hxb
  have hple : 2 ^ (Nat.log2 xn + 1) ≤ 2 ^ 30 :=
    Nat.pow_le_pow_right (by norm_num) (by omega)
  have hmod2 : 2 ^ (Nat.log2 xn + 1) % 4294967296 = 2 ^ (Nat.log2 xn + 1) :=
    Nat.mod_eq_of_lt (by calc 2 ^ (Nat.log2 xn + 1) ≤ 2 ^ 30 := hple
      _ < 4294967296 := by norm_num)
  rw [hmod2]
  rw [if_pos (show 2 ^ (Nat.log2 xn + 1) < 2 ^ 31 from
    lt_of_le_of_lt hple (by norm_num))]

/-- C9: confirmed.  For `1 <= value <= 2^30`, `next_highest_power_of_2`
returns a power of two, at least `value`, no larger than any power of two
that is at least `value` (hence the smallest such, and `value` itself when
`value` is already a power of two); and `next_highest_power_of_2 0 = 0`. -/
theorem next_highest_power_of_2_correct (v : Int) (hv1 : 1 ≤ v) (hv2 : v ≤ 2 ^ 30) :
    (∃ k : Nat, next_highest_power_of_2 v = 2 ^ k) ∧
    v ≤ next_highest_power_of_2 v ∧
    (∀ w : Int, (∃ k : Nat, w = 2 ^ k) → v ≤ w → next_highest_power_of_2 v ≤ w) ∧
    ((∃ k : Nat, v = 2 ^ k) → next_highest_power_of_2 v = v) ∧
    next_highest_power_of_2 0 = 0 := by
  rcases (show v = 1 ∨ 2 ≤ v by omega) with h1 | h2
  · subst h1
    have hone : next_highest_power_of_2 1 = 1 := by decide
    refine ⟨⟨0, by decide⟩, by decide, ?_, fun _ => by decide, by decide⟩
    rintro w ⟨k, hk⟩ hw
    rw [hone]
    exact hw
  · have h30 : ((2 : Int) ^ 30) = 1073741824 := by norm_num
    have hv2' : v ≤ 1073741824 := by omega
    have heq := nhp2_pos_eq v h2 hv2'
    have hcast : (((v - 1).toNat : Int)) = v - 1 := Int.toNat_of_nonneg (by omega)
    have hlow : 2 ^ Nat.log2 (v - 1).toNat ≤ (v - 1).toNat :=
      Nat.log2_self_le (by omega)
    have hhigh : (v - 1).toNat < 2 ^ (Nat.log2 (v - 1).toNat + 1) := Nat.lt_log2_self
    have hcastpow : ∀ k : Nat, (((2 ^ k : Nat) : Int)) = 2 ^ k := by
      intro k
      push_cast
      ring
    have hub : v ≤ next_highest_power_of_2 v := by
      rw [heq]
      omega
    have hmin : ∀ w : Int, (∃ k : Nat, w = 2 ^ k) → v ≤ w →
        next_highest_power_of_2 v ≤ w := by
      rintro w ⟨k, hk⟩ hw
      subst hk
      have hklt : (v - 1).toNat < 2 ^ k := by
        have hc := hcastpow k
        omega
      have hpp : 2 ^ Nat.log2 (v - 1).toNat < 2 ^ k := lt_of_le_of_lt hlow hklt
      have hmk : Nat.log2 (v - 1).toNat + 1 ≤ k := by
        have := (Nat.pow_lt_pow_iff_right (by norm_num : 1 < 2)).mp hpp
        omega
      rw [heq, hcastpow]
      exact pow_le_pow_right₀ (by norm_num) hmk
    refine ⟨⟨Nat.log2 (v - 1).toNat + 1, by rw [heq]; exact hcastpow _⟩, hub, hmin,
      ?_, by decide⟩
    rintro ⟨k, hk⟩
    exact le_antisymm (hmin v ⟨k, hk⟩ le_rfl) hub

/-- Witness for C9 at the concrete value 5. -/
theorem next_highest_power_of_2_correct_witness :
    ((1 ≤ (5 : Int)) ∧ (5 : Int) ≤ 2 ^ 30) ∧
    ((∃ k : Nat, next_highest_power_of_2 5 = 2 ^ k) ∧
      (5 : Int) ≤ next_highest_power_of_2 5 ∧
      (∀ w : Int, (∃ k : Nat, w = 2 ^ k) → 5 ≤ w → next_highest_power_of_2 5 ≤ w) ∧
      ((∃ k : Nat, (5 : Int) = 2 ^ k) → next_highest_power_of_2 5 = 5) ∧
      next_highest_power_of_2 0 = 0) :=
  ⟨⟨by norm_num, by norm_num⟩,
    next_highest_power_of_2_correct 5 (by norm_num) (by norm_num)⟩
